import Mathlib

/-!
Verification of the opinion-builder core (Topic Store, Message Router,
Subscription Manager, Connection Manager) against its specification.

The definitions below are a shallow embedding of the Python sources:

* `backend/opinion_builder/services/cache_service.py` (`CacheService`)
* `backend/opinion_builder/websocket/consumer.py` (`OpinionWebSocketConsumer`)
* `backend/opinion_builder/models/topic.py` / `models/websocket.py`

Modelling conventions:

* The `OrderedDict[int, Topic]` backing the cache is a `List (Int × Topic)`
  in insertion order, oldest entry first (`popitem(last=False)` drops the
  head).
* `datetime.now()` is modelled by an explicit `now : Nat` tick passed to
  every mutating operation; timestamps are `Option Nat`.
* Python strings are Lean `String`s; `str.lower()` is `Char.toLower`
  mapped over the characters, and the `in` substring test is
  `containsChars`.
* `Decimal` (`volume`) is never read or written by any modelled operation
  and is carried as an opaque `Option Int`.
* The private `_search_index` dictionary is not modelled: no public
  operation reads it (`search` is a linear scan over the ordered map).
-/

/-- `models/topic.py` `Topic`: one prediction market.  Field names follow
the source; `datetime` fields are ticks, `Decimal` is opaque. -/
structure Topic where
  id : String
  market_id : Int
  question : String
  description : Option String
  end_date : Option Nat
  outcome_type : String
  volume : Option Int
  last_price : Option String
  yes_price : Option String
  no_price : Option String
  liquidity : Option String
  created_at : Option Nat
  updated_at : Option Nat
  categories : Option (List String)
  slug : Option String
deriving DecidableEq, Repr, Inhabited

/-- `config.py` `Settings.cache_max_size` default. -/
def cacheMaxSizeDefault : Nat := 10000

/-- The Topic Store state: the `OrderedDict` contents (insertion order,
oldest first) and the effective `_max_size`. -/
structure CacheState where
  topics : List (Int × Topic)
  maxSize : Nat
deriving DecidableEq, Repr

/-- `CacheService.__init__`: `self._max_size = max_size or settings.cache_max_size`
(Python `or` replaces a falsy `0` by the configured default). -/
def mkCache (maxSize : Nat) : CacheState :=
  { topics := [], maxSize := if maxSize = 0 then cacheMaxSizeDefault else maxSize }

/-- First-match association lookup, as `OrderedDict.get`. -/
def assocFind : List (Int × Topic) → Int → Option Topic
  | [], _ => none
  | (k, t) :: rest, mid => if k = mid then some t else assocFind rest mid

/-- `del self._topics[market_id]` guarded by `if market_id in self._topics`:
removes the (unique) binding of the key, if present. -/
def removeKey : List (Int × Topic) → Int → List (Int × Topic)
  | [], _ => []
  | (k, t) :: rest, mid => if k = mid then rest else (k, t) :: removeKey rest mid

/-- `CacheService.get_topic`. -/
def getTopic (s : CacheState) (mid : Int) : Option Topic :=
  assocFind s.topics mid

/-- `CacheService.set_topic` (the spec's `upsert`): delete the key if
present, insert at the most-recently-used end, then
`if len(self._topics) > self._max_size: self._topics.popitem(last=False)`. -/
def setTopic (s : CacheState) (t : Topic) : CacheState :=
  let ts := removeKey s.topics t.market_id
  let ts := ts ++ [(t.market_id, t)]
  if s.maxSize < ts.length then { s with topics := ts.drop 1 }
  else { s with topics := ts }

/-- Plain `OrderedDict` item assignment `self._topics[market_id] = topic`
as performed by `initialize_topics`: an existing key keeps its position,
a new key is appended. -/
def ordAssign (l : List (Int × Topic)) (mid : Int) (t : Topic) : List (Int × Topic) :=
  match l with
  | [] => [(mid, t)]
  | (k, t') :: rest =>
    if k = mid then (mid, t) :: rest else (k, t') :: ordAssign rest mid t

/-- `CacheService.initialize_topics`: item-assigns every topic in order.
Note: unlike `set_topic`, no eviction is performed. -/
def initializeTopics (s : CacheState) (topics : List Topic) : CacheState :=
  { s with topics := topics.foldl (fun l t => ordAssign l t.market_id t) s.topics }

/-- `CacheService.get_all_topics` (the spec's `all()`), value level:
`list(self._topics.values())`. -/
def getAllTopics (s : CacheState) : List Topic :=
  s.topics.map (·.2)

/-- `CacheService.get_topic_count`. -/
def getTopicCount (s : CacheState) : Nat :=
  s.topics.length

/-- The in-place field mutations of `CacheService.update_price` lines 62–67:
side 1 sets `yes_price` and `last_price`, side 2 sets `no_price`, any other
side sets nothing; `updated_at` is always refreshed. -/
def applyPriceFields (t : Topic) (side : Int) (price : String) (now : Nat) : Topic :=
  let t :=
    if side = 1 then { t with yes_price := some price, last_price := some price }
    else if side = 2 then { t with no_price := some price }
    else t
  { t with updated_at := some now }

/-- In-place mutation of the topic object bound to a key: the binding for
`mid` gets the mutated object, every other binding is untouched, and
positions are unchanged. -/
def mutateAt : List (Int × Topic) → Int → (Topic → Topic) → List (Int × Topic)
  | [], _, _ => []
  | (k, t) :: rest, mid, f =>
    if k = mid then (k, f t) :: mutateAt rest mid f
    else (k, t) :: mutateAt rest mid f

/-- `CacheService.update_price` (the spec's `apply_price_update`): the topic
object found under `market_id` is mutated in place (position unchanged);
absent keys are a silent no-op. -/
def updatePrice (s : CacheState) (mid side : Int) (price : String) (now : Nat) : CacheState :=
  match assocFind s.topics mid with
  | none => s
  | some _ =>
    { s with topics := mutateAt s.topics mid (fun t => applyPriceFields t side price now) }

/-- A minimal topic value for concrete scenarios (all optional fields empty). -/
def mkTopic (i : String) (mid : Int) (q : String) : Topic :=
  { id := i, market_id := mid, question := q, description := none,
    end_date := none, outcome_type := "binary", volume := none,
    last_price := none, yes_price := none, no_price := none,
    liquidity := none, created_at := none, updated_at := none,
    categories := some [], slug := none }

example : getTopicCount (setTopic (mkCache 2) (mkTopic "A" 1 "a?")) = 1 := by decide

example :
    getTopic (updatePrice (setTopic (mkCache 2) (mkTopic "A" 4 "a?")) 4 1 "0.55" 3) 4
      = some (applyPriceFields (mkTopic "A" 4 "a?") 1 "0.55" 3) := by decide

/-- `models/websocket.py`: the three typed inbound messages
(`DepthDiffMessage`, `LastPriceMessage`, `LastTradeMessage`), carrying the
fields validated by the pydantic models. -/
inductive WsMessage where
  | depthDiff (market_id : Int) (token_id : String) (outcome_side : Int)
      (side : String) (price : String) (size : String)
  | lastPrice (market_id : Int) (token_id : String) (outcome_side : Int)
      (price : String)
  | lastTrade (market_id : Int) (token_id : String) (outcome_side : Int)
      (side : String) (price : String) (shares : String) (amount : String)
deriving DecidableEq, Repr

def WsMessage.marketId : WsMessage → Int
  | .depthDiff mid _ _ _ _ _ => mid
  | .lastPrice mid _ _ _ => mid
  | .lastTrade mid _ _ _ _ _ _ => mid

def WsMessage.outcomeSide : WsMessage → Int
  | .depthDiff _ _ side _ _ _ => side
  | .lastPrice _ _ side _ => side
  | .lastTrade _ _ side _ _ _ _ => side

def WsMessage.isDepthDiff : WsMessage → Bool
  | .depthDiff _ _ _ _ _ _ => true
  | _ => false

/-- The in-place mutations of `CacheService.update_from_ws_message`
lines 79–93 on the topic found in the store: `updated_at` is set first,
then the price fields according to the message kind and `outcome_side`
(`DepthDiffMessage` sets no price field). -/
def wsUpdateTopic (msg : WsMessage) (t : Topic) (now : Nat) : Topic :=
  let t := { t with updated_at := some now }
  match msg with
  | .depthDiff _ _ _ _ _ _ => t
  | .lastPrice _ _ side p =>
    if side = 1 then { t with yes_price := some p, last_price := some p }
    else if side = 2 then { t with no_price := some p }
    else t
  | .lastTrade _ _ side _ p _ _ =>
    if side = 1 then { t with yes_price := some p, last_price := some p }
    else if side = 2 then { t with no_price := some p }
    else t

/-- `CacheService.update_from_ws_message`: returns unchanged if
`message.market_id` is absent, otherwise mutates the stored topic in place. -/
def updateFromWsMessage (s : CacheState) (msg : WsMessage) (now : Nat) : CacheState :=
  match assocFind s.topics msg.marketId with
  | none => s
  | some _ =>
    { s with topics := mutateAt s.topics msg.marketId (fun t => wsUpdateTopic msg t now) }

/-- `b.startswith(a)` on character lists. -/
def startsWithChars : List Char → List Char → Bool
  | [], _ => true
  | _ :: _, [] => false
  | a :: as, b :: bs => a = b && startsWithChars as bs

/-- Python's substring test `needle in haystack` on character lists. -/
def containsChars (needle : List Char) : List Char → Bool
  | [] => needle.isEmpty
  | c :: rest => startsWithChars needle (c :: rest) || containsChars needle rest

/-- `str.lower()` as a character list. -/
def lowerChars (s : String) : List Char := s.data.map Char.toLower

/-- The match condition of `CacheService.search` lines 102–106, exactly as
written: the question test, then `topic.description and query_lower in
topic.description.lower()` (Python truthiness: an empty description string
short-circuits to false), then `any(... for cat in (topic.categories or []))`. -/
def matchesQuery (q : String) (t : Topic) : Bool :=
  containsChars (lowerChars q) (lowerChars t.question)
  || (match t.description with
      | some d => decide (d ≠ "") && containsChars (lowerChars q) (lowerChars d)
      | none => false)
  || (match t.categories with
      | some cs => cs.any (fun c => containsChars (lowerChars q) (lowerChars c))
      | none => false)

/-- The scan loop of `CacheService.search` lines 101–109: append each
matching topic, and `break` as soon as `len(results) >= limit` — a check
made only after a result has been appended. -/
def searchGo (q : String) (limit : Nat) : List Topic → List Topic → List Topic
  | acc, [] => acc
  | acc, t :: ts =>
    if matchesQuery q t then
      if limit ≤ (acc ++ [t]).length then acc ++ [t]
      else searchGo q limit (acc ++ [t]) ts
    else searchGo q limit acc ts

/-- `CacheService.search`. -/
def search (s : CacheState) (q : String) (limit : Nat) : List Topic :=
  searchGo q limit [] (s.topics.map (·.2))

/-- The claim's matching predicate, stated from the spec's words: the topic
matches when its question, its description, or some category contains the
keyword case-insensitively as a substring. -/
def claimMatches (q : String) (t : Topic) : Bool :=
  containsChars (lowerChars q) (lowerChars t.question)
  || (match t.description with
      | some d => containsChars (lowerChars q) (lowerChars d)
      | none => false)
  || (match t.categories with
      | some cs => cs.any (fun c => containsChars (lowerChars q) (lowerChars c))
      | none => false)

example :
    search (setTopic (mkCache 5) (mkTopic "A" 1 "The Election Year")) "elect" 10
      = [mkTopic "A" 1 "The Election Year"] := by decide

example :
    search (setTopic (mkCache 5) (mkTopic "A" 1 "The Election Year")) "senate" 10
      = [] := by decide

/-!  `websocket/consumer.py` (`OpinionWebSocketConsumer`). -/

/-- `models/websocket.py` `WebSocketSubscribeMessage`: `to_json` serialises
`action`, `channel`, and whichever of `marketId` / `rootMarketId` is set. -/
structure SubscribeFrame where
  action : String
  channel : String
  marketId : Option Int
  rootMarketId : Option Int
deriving DecidableEq, Repr

/-- `OpinionWebSocketConsumer._subscribe_market` lines 123–158: with no
live socket, nothing is sent; for a categorical market, one last-price
frame keyed by `rootMarketId`; otherwise a last-price frame keyed by
`marketId` followed by depth-diff and last-trade frames. -/
def subscribeMarket (hasWs : Bool) (marketId : Int) (outcomeType : String) :
    List SubscribeFrame :=
  if !hasWs then []
  else
    let first :=
      if outcomeType = "categorical" then
        { action := "SUBSCRIBE", channel := "market.last.price",
          marketId := none, rootMarketId := some marketId }
      else
        { action := "SUBSCRIBE", channel := "market.last.price",
          marketId := some marketId, rootMarketId := none }
    if outcomeType ≠ "categorical" then
      [first,
       { action := "SUBSCRIBE", channel := "market.depth.diff",
         marketId := some marketId, rootMarketId := none },
       { action := "SUBSCRIBE", channel := "market.last.trade",
         marketId := some marketId, rootMarketId := none }]
    else [first]

/-- Frames sent on the wire by the consumer: subscribe frames and the
heartbeat frame `{"action": "HEARTBEAT"}`. -/
inductive OutFrame where
  | subscribe (f : SubscribeFrame)
  | heartbeat
deriving DecidableEq, Repr

def OutFrame.isHeartbeat : OutFrame → Bool
  | .heartbeat => true
  | _ => false

/-- `OpinionWebSocketConsumer._heartbeat_loop` lines 160–168:
`while self._running and self._ws: send(HEARTBEAT); sleep(interval)`.
`running` and `hasWs` are the values of `self._running` / `self._ws` when
the loop runs (nothing in the sequential session changes them once the
socket has closed); `fuel` bounds the number of iterations observed. -/
def heartbeatFrames (running hasWs : Bool) : Nat → List OutFrame
  | 0 => []
  | fuel + 1 =>
    if running && hasWs then OutFrame.heartbeat :: heartbeatFrames running hasWs fuel
    else []

/-- One complete `OpinionWebSocketConsumer._connect` call (lines 79–115) on
a connection that opens successfully and is later closed by the peer, as
the ordered list of frames the consumer sends:

* `on_open` sets `_running = True` and subscribes every cached market
  (`_subscribe_all_markets`, lines 117–121) while `run_forever` is live;
* `run_forever` (line 112) returns only once the socket has closed, and
  `on_close` (lines 89–95) has then already set `_running = False`;
* only after that return does line 115 create the heartbeat task, so
  `_heartbeat_loop` starts with `_running = False`.

`topics` is the cache contents as (market_id, outcome_type) pairs; `fuel`
bounds the heartbeat-loop iterations observed after the session. -/
def connectSessionFrames (topics : List (Int × String)) (fuel : Nat) : List OutFrame :=
  let subs := (topics.map (fun p => (subscribeMarket true p.1 p.2).map OutFrame.subscribe)).flatten
  let runningAfterClose := false
  subs ++ heartbeatFrames runningAfterClose true fuel

/-- Count of heartbeat frames in a sent-frame list. -/
def countHeartbeats (l : List OutFrame) : Nat :=
  l.countP (·.isHeartbeat)

/-- `OpinionWebSocketConsumer._connect_with_retry` lines 65–77: the update
of `self._reconnect_delay` over one loop iteration.  `__init__` sets the
delay to 5 and `_max_reconnect_delay` to 60; a successful `_connect`
resets the delay to 5, a failure doubles it up to the cap (after sleeping
the current delay). -/
def retryDelayStep (delay : Nat) (success : Bool) : Nat :=
  if success then 5 else min (delay * 2) 60

/-- `self._reconnect_delay` after a sequence of connect outcomes
(`true` = success, `false` = failure), starting from `__init__`'s 5. -/
def delayAfter (outcomes : List Bool) : Nat :=
  outcomes.foldl retryDelayStep 5

example : delayAfter [false, false, false, false, false] = 60 := by decide
example : delayAfter [false, false, true, false] = 10 := by decide
example : countHeartbeats (connectSessionFrames [(9, "binary")] 3) = 0 := by decide
example : (subscribeMarket true 7 "categorical").length = 1 := by decide

/-!
Reference-level model of the same `CacheService` operations.

Python stores *references* to `Topic` objects: `get_all_topics` copies the
list of references (`list(self._topics.values())`), while `update_price`
mutates the referenced object in place.  To settle the snapshot claim this
second model makes the object identity explicit: a heap maps addresses to
`Topic` values, the ordered dict maps market ids to addresses, and each
`set_topic` call installs a fresh address (the caller's newly constructed
object).  Evicted or replaced objects stay on the heap, as they do in
Python while a snapshot still references them.
-/

structure RefCache where
  heap : List (Nat × Topic)
  order : List (Int × Nat)
  next : Nat
  maxSize : Nat
deriving DecidableEq, Repr

/-- Dereference an address (first binding wins; addresses are allocated
uniquely). -/
def heapGet : List (Nat × Topic) → Nat → Option Topic
  | [], _ => none
  | (k, t) :: rest, a => if k = a then some t else heapGet rest a

/-- Overwrite the object stored at an address (in-place field mutation). -/
def heapSet : List (Nat × Topic) → Nat → Topic → List (Nat × Topic)
  | [], _, _ => []
  | (k, t) :: rest, a, t' => if k = a then (k, t') :: rest else (k, t) :: heapSet rest a t'

/-- Address lookup in the ordered dict. -/
def orderFind : List (Int × Nat) → Int → Option Nat
  | [], _ => none
  | (k, a) :: rest, mid => if k = mid then some a else orderFind rest mid

/-- Key removal in the ordered dict (`del self._topics[market_id]`). -/
def orderRemove : List (Int × Nat) → Int → List (Int × Nat)
  | [], _ => []
  | (k, a) :: rest, mid => if k = mid then rest else (k, a) :: orderRemove rest mid

/-- `CacheService.__init__` at the reference level. -/
def mkRefCache (maxSize : Nat) : RefCache :=
  { heap := [], order := [], next := 0,
    maxSize := if maxSize = 0 then cacheMaxSizeDefault else maxSize }

/-- `CacheService.set_topic` at the reference level: the caller's fresh
`Topic` object is allocated at address `next`; the dict drops any old
binding of the key, appends the new reference, and evicts its oldest
*binding* when over capacity (the object itself survives on the heap for
any snapshot that still references it). -/
def setTopicRef (s : RefCache) (t : Topic) : RefCache :=
  let ord := orderRemove s.order t.market_id ++ [(t.market_id, s.next)]
  { heap := s.heap ++ [(s.next, t)],
    order := if s.maxSize < ord.length then ord.drop 1 else ord,
    next := s.next + 1,
    maxSize := s.maxSize }

/-- `CacheService.get_all_topics` at the reference level:
`list(self._topics.values())` copies the list of object references. -/
def getAllTopicsRef (s : RefCache) : List Nat :=
  s.order.map (·.2)

/-- Reading the topics a snapshot references, against a given heap. -/
def observeSnap (heap : List (Nat × Topic)) (snap : List Nat) : List (Option Topic) :=
  snap.map (heapGet heap)

/-- `CacheService.update_price` at the reference level: the object bound to
`market_id` (if any) is mutated in place; the dict is untouched. -/
def updatePriceRef (s : RefCache) (mid side : Int) (price : String) (now : Nat) : RefCache :=
  match orderFind s.order mid with
  | none => s
  | some a =>
    match heapGet s.heap a with
    | none => s
    | some t => { s with heap := heapSet s.heap a (applyPriceFields t side price now) }

/-- Well-formedness kept by every operation: the dict only references
already-allocated addresses. -/
def RefCacheWF (s : RefCache) : Prop :=
  ∀ p ∈ s.order, p.2 < s.next

instance (s : RefCache) : Decidable (RefCacheWF s) :=
  inferInstanceAs (Decidable (∀ p ∈ s.order, p.2 < s.next))

example :
    observeSnap (setTopicRef (mkRefCache 4) (mkTopic "A" 1 "a?")).heap
        (getAllTopicsRef (setTopicRef (mkRefCache 4) (mkTopic "A" 1 "a?")))
      = [some (mkTopic "A" 1 "a?")] := by decide

/-! Concrete topics for the scenario claims. -/

def tA : Topic := mkTopic "A" 1 "alpha?"
def tB : Topic := mkTopic "B" 2 "beta?"
def tC : Topic := mkTopic "C" 3 "gamma?"

/-! Helper lemmas on the list operations of the store. -/

lemma removeKey_length_le (l : List (Int × Topic)) (mid : Int) :
    (removeKey l mid).length ≤ l.length := by
  induction l with
  | nil => simp [removeKey]
  | cons p rest ih =>
    obtain ⟨k, t⟩ := p
    by_cases h : k = mid <;> simp [removeKey, h] <;> omega

lemma setTopic_maxSize (s : CacheState) (t : Topic) :
    (setTopic s t).maxSize = s.maxSize := by
  simp only [setTopic]
  split <;> rfl

lemma setTopic_length_le (s : CacheState) (t : Topic)
    (h : s.topics.length ≤ s.maxSize) :
    (setTopic s t).topics.length ≤ s.maxSize := by
  have hrem := removeKey_length_le s.topics t.market_id
  simp only [setTopic]
  split <;> simp_all <;> omega

lemma foldl_setTopic_length_le (ts : List Topic) :
    ∀ s : CacheState, s.topics.length ≤ s.maxSize →
      (ts.foldl setTopic s).topics.length ≤ s.maxSize := by
  induction ts with
  | nil => intro s h; simpa using h
  | cons t ts ih =>
    intro s h
    have h1 : (setTopic s t).topics.length ≤ (setTopic s t).maxSize := by
      rw [setTopic_maxSize]; exact setTopic_length_le s t h
    have := ih (setTopic s t) h1
    rw [setTopic_maxSize] at this
    simpa using this

lemma ordAssign_length_le (l : List (Int × Topic)) (mid : Int) (t : Topic) :
    (ordAssign l mid t).length ≤ l.length + 1 := by
  induction l with
  | nil => simp [ordAssign]
  | cons p rest ih =>
    obtain ⟨k, t'⟩ := p
    by_cases h : k = mid <;> simp [ordAssign, h] <;> omega

lemma foldl_ordAssign_length_le (ts : List Topic) :
    ∀ l : List (Int × Topic),
      (ts.foldl (fun l t => ordAssign l t.market_id t) l).length ≤ l.length + ts.length := by
  induction ts with
  | nil => intro l; simp
  | cons t ts ih =>
    intro l
    have h1 := ordAssign_length_le l t.market_id t
    have h2 := ih (ordAssign l t.market_id t)
    simp only [List.foldl_cons, List.length_cons]
    omega

/-- C8: For every sequence of upsert calls starting from an empty store
with capacity `max_size`, the store size after the sequence is at most
`max_size`. -/
theorem C8_upsert_size_invariant (M : Nat) (ts : List Topic) :
    (ts.foldl setTopic (mkCache M)).topics.length ≤ (mkCache M).maxSize := by
  apply foldl_setTopic_length_le
  simp [mkCache]

/-- C1 (counterexample): `initialize_topics` performs no eviction, so
bulk-loading three distinct topics into a store of capacity 2 leaves the
size at 3, above `max_size`. -/
theorem C1_counterexample :
    ¬ ((initializeTopics (mkCache 2) [tA, tB, tC]).topics.length
        ≤ (mkCache 2).maxSize) := by decide

/-- C1 (amended): `initialize(topics)` does not enforce the `max_size`
bound; the store size after `initialize` is only bounded by the prior size
plus the number of loaded topics (the `upsert` bound is C8). -/
theorem C1_init_size_bound (s : CacheState) (ts : List Topic) :
    (initializeTopics s ts).topics.length ≤ s.topics.length + ts.length := by
  unfold initializeTopics
  exact foldl_ordAssign_length_le ts s.topics

/-- C4: Eviction is FIFO by last insert-or-update and reads do not refresh
recency: with `max_size = 2`, upserting A, B, C leaves exactly {B, C};
upserting A, B, A again, then C evicts B and leaves exactly {A, C}. -/
theorem C4_eviction_order :
    (setTopic (setTopic (setTopic (mkCache 2) tA) tB) tC).topics
        = [(2, tB), (3, tC)]
    ∧ (setTopic (setTopic (setTopic (setTopic (mkCache 2) tA) tB) tA) tC).topics
        = [(1, tA), (3, tC)] := by decide

/-! Helper lemmas for the Connection Manager claims. -/

lemma heartbeatFrames_not_running (hasWs : Bool) (fuel : Nat) :
    heartbeatFrames false hasWs fuel = [] := by
  cases fuel <;> simp [heartbeatFrames]

lemma countHeartbeats_append (a b : List OutFrame) :
    countHeartbeats (a ++ b) = countHeartbeats a + countHeartbeats b := by
  simp [countHeartbeats, List.countP_append]

lemma countHeartbeats_map_subscribe (l : List SubscribeFrame) :
    countHeartbeats (l.map OutFrame.subscribe) = 0 := by
  induction l with
  | nil => rfl
  | cons f rest ih =>
    simp only [List.map_cons, countHeartbeats, List.countP_cons] at *
    simp [OutFrame.isHeartbeat, ih]

/-- C2: No heartbeat frame is ever sent over a complete `_connect` session:
the heartbeat task is created only after `run_forever` has returned, by
which time `on_close` has set `_running = False`, so the loop body never
runs.  (The claim says a heartbeat is sent every `heartbeat_interval`
seconds while Connected; the code sends none at all.) -/
theorem C2_no_heartbeat_sent (topics : List (Int × String)) (fuel : Nat) :
    countHeartbeats (connectSessionFrames topics fuel) = 0 := by
  have hsubs :
      ∀ l : List (Int × String),
        countHeartbeats
          ((l.map (fun p => (subscribeMarket true p.1 p.2).map OutFrame.subscribe)).flatten)
          = 0 := by
    intro l
    induction l with
    | nil => rfl
    | cons p rest ih =>
      simp only [List.map_cons, List.flatten_cons]
      rw [countHeartbeats_append, countHeartbeats_map_subscribe, ih]
  show countHeartbeats
      ((topics.map (fun p => (subscribeMarket true p.1 p.2).map OutFrame.subscribe)).flatten
        ++ heartbeatFrames false true fuel) = 0
  rw [heartbeatFrames_not_running, List.append_nil]
  exact hsubs topics

lemma replicate_false_foldl (k : Nat) :
    (List.replicate k false).foldl retryDelayStep 5 = min (5 * 2 ^ k) 60 := by
  induction k with
  | zero => simp [retryDelayStep]
  | succ k ih =>
    rw [List.replicate_succ', List.foldl_append, ih]
    have hstep : List.foldl retryDelayStep (min (5 * 2 ^ k) 60) [false]
        = min (min (5 * 2 ^ k) 60 * 2) 60 := rfl
    rw [hstep]
    have h2 : 5 * 2 ^ (k + 1) = 5 * 2 ^ k * 2 := by ring
    rw [h2]
    omega

/-- C5: After `k` consecutive connection failures the stored backoff delay
is `min(5 * 2^k, 60)` — both from a fresh start and right after any
successful connect (`k = 0` gives the reset-to-base value 5). -/
theorem C5_backoff :
    (∀ k : Nat, delayAfter (List.replicate k false) = min (5 * 2 ^ k) 60)
    ∧ (∀ (outcomes : List Bool) (k : Nat),
        delayAfter (outcomes ++ true :: List.replicate k false) = min (5 * 2 ^ k) 60) := by
  constructor
  · intro k
    exact replicate_false_foldl k
  · intro outcomes k
    unfold delayAfter
    rw [List.foldl_append, List.foldl_cons]
    show (List.replicate k false).foldl retryDelayStep (retryDelayStep _ true) = _
    rw [show ∀ d, retryDelayStep d true = 5 from fun _ => rfl]
    exact replicate_false_foldl k

/-- C9: For every topic, the derived subscription set is exactly one
last-price frame keyed by `rootMarketId` for a categorical outcome type,
and exactly three frames keyed by `marketId`, one per channel, for every
other outcome type. -/
theorem C9_subscriptions (m : Int) (ot : String) :
    (ot = "categorical" →
      (subscribeMarket true m ot).length = 1
      ∧ ∀ f ∈ subscribeMarket true m ot,
          f.action = "SUBSCRIBE" ∧ f.channel = "market.last.price"
            ∧ f.rootMarketId = some m ∧ f.marketId = none)
    ∧ (ot ≠ "categorical" →
      (subscribeMarket true m ot).length = 3
      ∧ (∀ f ∈ subscribeMarket true m ot,
          f.action = "SUBSCRIBE" ∧ f.marketId = some m ∧ f.rootMarketId = none)
      ∧ (subscribeMarket true m ot).map (·.channel)
          = ["market.last.price", "market.depth.diff", "market.last.trade"]) := by
  constructor
  · intro h
    subst h
    simp [subscribeMarket]
  · intro h
    simp [subscribeMarket, h]

/-- Witness for C9 at the spec's own scenario: a categorical topic with
`market_id = 7` and a binary topic with `market_id = 9`. -/
theorem C9_witness :
    ((subscribeMarket true 7 "categorical").length = 1
      ∧ ∀ f ∈ subscribeMarket true 7 "categorical",
          f.action = "SUBSCRIBE" ∧ f.channel = "market.last.price"
            ∧ f.rootMarketId = some 7 ∧ f.marketId = none)
    ∧ ((subscribeMarket true 9 "binary").length = 3
      ∧ (∀ f ∈ subscribeMarket true 9 "binary",
          f.action = "SUBSCRIBE" ∧ f.marketId = some 9 ∧ f.rootMarketId = none)
      ∧ (subscribeMarket true 9 "binary").map (·.channel)
          = ["market.last.price", "market.depth.diff", "market.last.trade"]) :=
  ⟨(C9_subscriptions 7 "categorical").1 rfl,
   (C9_subscriptions 9 "binary").2 (by decide)⟩

/-! Helper lemmas for the price-update claims. -/

lemma assocFind_mutateAt_some (l : List (Int × Topic)) (mid : Int)
    (f : Topic → Topic) (t : Topic) (h : assocFind l mid = some t) :
    assocFind (mutateAt l mid f) mid = some (f t) := by
  induction l with
  | nil => simp [assocFind] at h
  | cons p rest ih =>
    obtain ⟨k, t'⟩ := p
    by_cases hk : k = mid
    · subst hk
      simp [assocFind] at h
      subst h
      simp [mutateAt, assocFind]
    · simp only [assocFind, if_neg hk] at h
      simp only [mutateAt, if_neg hk, assocFind]
      exact ih h

lemma wsUpdateTopic_lastTrade_eq (mid : Int) (tid : String) (side : Int)
    (sd p sh am : String) (t : Topic) (now : Nat) :
    wsUpdateTopic (.lastTrade mid tid side sd p sh am) t now
      = applyPriceFields t side p now := by
  unfold wsUpdateTopic applyPriceFields
  by_cases h1 : side = 1
  · simp [h1]
  · by_cases h2 : side = 2 <;> simp [h1, h2]

/-- C6: `apply_price_update` is a silent no-op on an absent market; on a
present one, side 1 sets `yes_price` and `last_price`, side 2 sets
`no_price`, any other side changes no price field, and `updated_at` is
always refreshed; and `apply_trade_update` (the last-trade branch of
`update_from_ws_message`) has identical field-update semantics for every
input. -/
theorem C6_update_semantics (s : CacheState) (mid side : Int) (p : String) (now : Nat) :
    (getTopic s mid = none → updatePrice s mid side p now = s)
    ∧ (∀ t, getTopic s mid = some t →
        getTopic (updatePrice s mid side p now) mid = some
          { t with
              yes_price := if side = 1 then some p else t.yes_price,
              last_price := if side = 1 then some p else t.last_price,
              no_price := if side = 2 then some p else t.no_price,
              updated_at := some now })
    ∧ (∀ tid sd sh am,
        updateFromWsMessage s (.lastTrade mid tid side sd p sh am) now
          = updatePrice s mid side p now) := by
  refine ⟨?_, ?_, ?_⟩
  · intro h
    unfold updatePrice
    rw [getTopic] at h
    simp [h]
  · intro t h
    rw [getTopic] at h
    unfold updatePrice getTopic
    rw [h]
    have hfound := assocFind_mutateAt_some s.topics mid
      (fun t => applyPriceFields t side p now) t h
    simp only [hfound]
    congr 1
    unfold applyPriceFields
    by_cases h1 : side = 1
    · simp [h1]
    · by_cases h2 : side = 2 <;> simp [h1, h2]
  · intro tid sd sh am
    unfold updateFromWsMessage updatePrice
    simp only [WsMessage.marketId]
    cases hfind : assocFind s.topics mid with
    | none => rfl
    | some t0 => simp only [wsUpdateTopic_lastTrade_eq]

/-- Witness for C6: the empty store is a no-op target, and in a store
holding topic A under key 1, a side-1 update at price "0.55" and the
equivalent last-trade message behave as stated. -/
theorem C6_witness :
    (updatePrice (mkCache 5) 4 1 "0.55" 3 = mkCache 5)
    ∧ (getTopic (updatePrice (setTopic (mkCache 5) tA) 1 1 "0.55" 3) 1 = some
        { tA with
            yes_price := if (1 : Int) = 1 then some "0.55" else tA.yes_price,
            last_price := if (1 : Int) = 1 then some "0.55" else tA.last_price,
            no_price := if (1 : Int) = 2 then some "0.55" else tA.no_price,
            updated_at := some 3 })
    ∧ (updateFromWsMessage (setTopic (mkCache 5) tA)
          (.lastTrade 1 "tok" 1 "Buy" "0.55" "2" "1.1") 3
        = updatePrice (setTopic (mkCache 5) tA) 1 1 "0.55" 3) :=
  ⟨(C6_update_semantics (mkCache 5) 4 1 "0.55" 3).1 rfl,
   (C6_update_semantics (setTopic (mkCache 5) tA) 1 1 "0.55" 3).2.1 tA rfl,
   (C6_update_semantics (setTopic (mkCache 5) tA) 1 1 "0.55" 3).2.2 "tok" "Buy" "2" "1.1"⟩

/-- C10: whenever a typed websocket message is applied for a present
`market_id`, `updated_at` is refreshed unconditionally — including for
depth-diff messages and for outcome sides outside {1, 2}, where no price
field changes at all. -/
theorem C10_updated_at_refreshed (s : CacheState) (msg : WsMessage) (now : Nat)
    (t : Topic) (h : getTopic s msg.marketId = some t) :
    ∃ t', getTopic (updateFromWsMessage s msg now) msg.marketId = some t'
      ∧ t'.updated_at = some now
      ∧ ((msg.isDepthDiff = true ∨ (msg.outcomeSide ≠ 1 ∧ msg.outcomeSide ≠ 2)) →
          t'.yes_price = t.yes_price ∧ t'.no_price = t.no_price
            ∧ t'.last_price = t.last_price) := by
  rw [getTopic] at h
  refine ⟨wsUpdateTopic msg t now, ?_, ?_, ?_⟩
  · unfold updateFromWsMessage getTopic
    rw [h]
    exact assocFind_mutateAt_some s.topics msg.marketId
      (fun t => wsUpdateTopic msg t now) t h
  · cases msg with
    | depthDiff mid tid side sd p sz => rfl
    | lastPrice mid tid side p =>
      by_cases h1 : side = 1
      · simp [wsUpdateTopic, h1]
      · by_cases h2 : side = 2 <;> simp [wsUpdateTopic, h1, h2]
    | lastTrade mid tid side sd p sh am =>
      by_cases h1 : side = 1
      · simp [wsUpdateTopic, h1]
      · by_cases h2 : side = 2 <;> simp [wsUpdateTopic, h1, h2]
  · intro hside
    cases msg with
    | depthDiff mid tid side sd p sz => exact ⟨rfl, rfl, rfl⟩
    | lastPrice mid tid side p =>
      simp only [WsMessage.isDepthDiff, WsMessage.outcomeSide] at hside
      rcases hside with h' | ⟨h1, h2⟩
      · exact absurd h' (by simp)
      · simp [wsUpdateTopic, h1, h2]
    | lastTrade mid tid side sd p sh am =>
      simp only [WsMessage.isDepthDiff, WsMessage.outcomeSide] at hside
      rcases hside with h' | ⟨h1, h2⟩
      · exact absurd h' (by simp)
      · simp [wsUpdateTopic, h1, h2]

/-- Witness for C10: a depth-diff message with outcome side 5 applied to a
store holding topic A under key 1. -/
theorem C10_witness :
    ∃ t', getTopic
        (updateFromWsMessage (setTopic (mkCache 5) tA)
          (.depthDiff 1 "tok" 5 "bids" "0.5" "10") 9)
        (WsMessage.depthDiff 1 "tok" 5 "bids" "0.5" "10").marketId = some t'
      ∧ t'.updated_at = some 9
      ∧ (((WsMessage.depthDiff 1 "tok" 5 "bids" "0.5" "10").isDepthDiff = true
          ∨ ((WsMessage.depthDiff 1 "tok" 5 "bids" "0.5" "10").outcomeSide ≠ 1
             ∧ (WsMessage.depthDiff 1 "tok" 5 "bids" "0.5" "10").outcomeSide ≠ 2)) →
          t'.yes_price = tA.yes_price ∧ t'.no_price = tA.no_price
            ∧ t'.last_price = tA.last_price) :=
  C10_updated_at_refreshed (setTopic (mkCache 5) tA)
    (.depthDiff 1 "tok" 5 "bids" "0.5" "10") 9 tA rfl

/-! Helper lemmas for the snapshot claim (C3). -/

lemma heapGet_append_ne (h : List (Nat × Topic)) (k : Nat) (v : Topic)
    (a : Nat) (hne : a ≠ k) :
    heapGet (h ++ [(k, v)]) a = heapGet h a := by
  induction h with
  | nil =>
    simp only [List.nil_append, heapGet]
    rw [if_neg (fun hk => hne hk.symm)]
  | cons p rest ih =>
    obtain ⟨k', t'⟩ := p
    by_cases hk : k' = a
    · simp [heapGet, hk]
    · simp only [List.cons_append, heapGet, if_neg hk]
      exact ih

/-- C3 (counterexample): the sequence returned by `all()` is only a shallow
copy.  Store topic A, take the snapshot, then apply a side-1 price update:
the topic observable through the snapshot has changed. -/
theorem C3_counterexample :
    observeSnap
        (updatePriceRef (setTopicRef (mkRefCache 4) tA) 1 1 "0.55" 7).heap
        (getAllTopicsRef (setTopicRef (mkRefCache 4) tA))
      ≠ observeSnap (setTopicRef (mkRefCache 4) tA).heap
          (getAllTopicsRef (setTopicRef (mkRefCache 4) tA)) := by decide

/-- C3 (amended): the sequence returned by `all()` is a snapshot with
respect to `upsert` — a later `set_topic` installs a freshly constructed
object and never changes what an existing snapshot observes — while
`apply_price_update` / `apply_trade_update` mutate the shared topic in
place and are observable through earlier snapshots (the counterexample). -/
theorem C3_snapshot_stable_under_upsert (s : RefCache) (t : Topic)
    (hwf : RefCacheWF s) :
    observeSnap (setTopicRef s t).heap (getAllTopicsRef s)
      = observeSnap s.heap (getAllTopicsRef s) := by
  unfold observeSnap setTopicRef
  apply List.map_congr_left
  intro a ha
  rcases List.mem_map.mp ha with ⟨p, hp, rfl⟩
  exact heapGet_append_ne s.heap s.next t p.2 (Nat.ne_of_lt (hwf p hp))

/-- Witness for C3's amended theorem: a store holding topic A, upserting
topic B. -/
theorem C3_witness :
    observeSnap (setTopicRef (setTopicRef (mkRefCache 4) tA) tB).heap
        (getAllTopicsRef (setTopicRef (mkRefCache 4) tA))
      = observeSnap (setTopicRef (mkRefCache 4) tA).heap
          (getAllTopicsRef (setTopicRef (mkRefCache 4) tA)) :=
  C3_snapshot_stable_under_upsert (setTopicRef (mkRefCache 4) tA) tB
    (by decide)

/-! Helper lemmas for the search claim (C7). -/

lemma containsChars_nil_needle (hay : List Char) :
    containsChars [] hay = true := by
  cases hay <;> simp [containsChars, startsWithChars, List.isEmpty]

lemma matchesQuery_eq_claimMatches (q : String) (t : Topic) :
    matchesQuery q t = claimMatches q t := by
  unfold matchesQuery claimMatches
  cases hd : t.description with
  | none => rfl
  | some d =>
    by_cases hde : d = ""
    · subst hde
      cases hq : containsChars (lowerChars q) (lowerChars t.question) with
      | true => simp
      | false =>
        have hne : lowerChars q ≠ [] := by
          intro hnil
          rw [hnil, containsChars_nil_needle] at hq
          exact Bool.noConfusion hq
        have hmid : containsChars (lowerChars q) (lowerChars "") = false := by
          cases hql : lowerChars q with
          | nil => exact absurd hql hne
          | cons c cs => rfl
        simp [hmid]
    · simp [hde]

lemma searchGo_spec (q : String) (limit : Nat) :
    ∀ (ts acc : List Topic), acc.length < limit →
      searchGo q limit acc ts
        = acc ++ (ts.filter (matchesQuery q)).take (limit - acc.length) := by
  intro ts
  induction ts with
  | nil =>
    intro acc _
    simp [searchGo]
  | cons t ts ih =>
    intro acc hacc
    by_cases hm : matchesQuery q t
    · by_cases hl : limit ≤ (acc ++ [t]).length
      · have hlim : limit - acc.length = 1 := by
          simp only [List.length_append, List.length_cons, List.length_nil] at hl
          omega
        simp only [searchGo, if_pos hm, if_pos hl, List.filter_cons_of_pos hm, hlim,
          List.take_succ_cons, List.take_zero]
      · push_neg at hl
        have hacc' : (acc ++ [t]).length < limit := hl
        have hlen : (acc ++ [t]).length = acc.length + 1 := by simp
        have hstep : limit - acc.length = (limit - (acc.length + 1)) + 1 := by omega
        simp only [searchGo, if_pos hm, ih (acc ++ [t]) hacc',
          List.filter_cons_of_pos hm, hstep, List.take_succ_cons, hlen,
          List.append_assoc, List.singleton_append]
        rw [if_neg (by omega : ¬ limit ≤ acc.length + 1)]
    · simp only [searchGo, if_neg hm, List.filter_cons_of_neg hm]
      exact ih acc hacc

/-- C7 (counterexample): with `limit = 0` the scan still returns the first
matching topic, because the limit check runs only after a result has been
appended — so `search` is not truncated to at most `limit` results for
every limit. -/
theorem C7_counterexample :
    ¬ ((search (setTopic (mkCache 5) tA) "alpha" 0).length ≤ 0) := by decide

/-- C7 (amended): for every keyword and every `limit ≥ 1`, `search`
returns exactly the topics, in store order, whose question, description,
or some category contains the keyword case-insensitively as a substring,
truncated to the first `limit` of them. -/
theorem C7_search_correct (s : CacheState) (q : String) (limit : Nat)
    (h : 1 ≤ limit) :
    search s q limit
      = ((s.topics.map (·.2)).filter (claimMatches q)).take limit := by
  unfold search
  rw [searchGo_spec q limit (s.topics.map (·.2)) [] (by simpa using h)]
  rw [List.filter_congr (fun t _ => matchesQuery_eq_claimMatches q t)]
  simp

/-- Witness for C7's amended theorem: a one-topic store searched with a
matching keyword and limit 1. -/
theorem C7_witness :
    (1 : Nat) ≤ 1
    ∧ search (setTopic (mkCache 5) tA) "alpha" 1
        = (((setTopic (mkCache 5) tA).topics.map (·.2)).filter
            (claimMatches "alpha")).take 1 :=
  ⟨by decide, C7_search_correct (setTopic (mkCache 5) tA) "alpha" 1 (by decide)⟩
